import Mathlib

/-!
Shallow embedding of the combat engine of the solo-spire repository
(src/main.rs, src/card.rs, src/skills.rs).

Bevy timers run on Duration, an integer count of nanoseconds, so time
(elapsed values, periods, per-step deltas) is modelled by naturals;
Rust i32 health and damage values by integers, usize stats by naturals.
Bevy Timer semantics are reproduced for the two modes the game uses.
Each per-frame system of main.rs is a function on a BattleState record
whose fields stand for the ECS queries the system takes; battle_step
chains the simulation-relevant systems in the registration order of
fn main (update_card_timers, enemy_auto_attack, player_auto_attack,
calculate_player_effects, calculate_enemy_effects).  Death checks and
the phase transition handlers are modelled as separate functions, as in
the source.
-/

namespace SoloSpire

/-- bevy TimerMode: the source uses Once for duration style countdowns
and Repeating for attack cooldowns and dot frequencies. -/
inductive TimerMode where
  | Once
  | Repeating
deriving DecidableEq

/-- bevy Timer as the source uses it: elapsed time, total duration, the
mode, and the finished flag recomputed by every tick. -/
structure Timer where
  elapsed : ℕ
  duration : ℕ
  mode : TimerMode
  finished : Bool
deriving DecidableEq

/-- bevy Timer::from_seconds. -/
def Timer.from_seconds (d : ℕ) (m : TimerMode) : Timer := ⟨0, d, m, false⟩

/-- bevy Timer::tick (never paused in this game): a finished one-shot
timer ignores further ticks; otherwise elapsed advances by delta and, on
completion, a repeating timer wraps to elapsed minus duration times
(elapsed divided by duration), that is elapsed modulo duration, while a
one-shot timer saturates at its duration. -/
def Timer.tick (t : Timer) (delta : ℕ) : Timer :=
  if t.mode = TimerMode.Once ∧ t.finished = true then t
  else
    let e := t.elapsed + delta
    if t.duration ≤ e then
      match t.mode with
      | TimerMode.Repeating => ⟨e % t.duration, t.duration, t.mode, true⟩
      | TimerMode.Once => ⟨t.duration, t.duration, t.mode, true⟩
    else ⟨e, t.duration, t.mode, false⟩

/-- card.rs CardEffect: the spec of a card, durations still plain numbers. -/
inductive CardEffect where
  | DirectDamage (damage : ℤ)
  | DamageOverTime (damage : ℤ) (duration : ℕ) (frequency : ℕ)
  | Stun (duration : ℕ)
  | Heal (heal : ℤ)
deriving DecidableEq

/-- card.rs ActiveEffect: a live effect instance carrying timers. -/
inductive ActiveEffect where
  | DirectDamage (damage : ℤ)
  | DamageOverTime (damage : ℤ) (duration : Timer) (frequency : Timer)
  | Stun (duration : Timer)
  | Heal (heal : ℤ)
deriving DecidableEq

/-- skills.rs Stats. -/
structure Stats where
  strength : ℕ
  agility : ℕ
  stamina : ℕ
  perception : ℕ
  intelligence : ℕ
deriving DecidableEq

/-- A card: its CardAttackTimer and its CardEffect component. -/
structure Card where
  timer : Timer
  effect : CardEffect
deriving DecidableEq

/-- The combat-relevant ECS state during Battle: both combatants exist,
each with its card children, Effects list, health and Stats. -/
structure BattleState where
  playerCards : List Card
  enemyCards : List Card
  playerEffects : List ActiveEffect
  enemyEffects : List ActiveEffect
  playerHealth : ℤ
  enemyHealth : ℤ
  playerStats : Stats
  enemyStats : Stats
deriving DecidableEq

/-- The stun test every system repeats: some Stun entry whose duration
timer is not finished. -/
def is_stunned (effects : List ActiveEffect) : Bool :=
  effects.any fun e =>
    match e with
    | ActiveEffect.Stun d => !d.finished
    | _ => false

/-- main.rs update_card_timers: tick every card timer whose owning
combatant is not stunned. -/
def update_card_timers (delta : ℕ) (st : BattleState) : BattleState :=
  let player_stunned := is_stunned st.playerEffects
  let enemy_stunned := is_stunned st.enemyEffects
  { st with
    playerCards := st.playerCards.map fun c =>
      if player_stunned = true then c else { c with timer := c.timer.tick delta },
    enemyCards := st.enemyCards.map fun c =>
      if enemy_stunned = true then c else { c with timer := c.timer.tick delta } }

/-- The match in enemy_auto_attack turning a CardEffect into the
ActiveEffect pushed onto the player: DamageOverTime gets a Once duration
and a Repeating frequency, Stun a Once duration. -/
def instantiate_effect (e : CardEffect) : ActiveEffect :=
  match e with
  | CardEffect.DamageOverTime damage duration frequency =>
      ActiveEffect.DamageOverTime damage (Timer.from_seconds duration TimerMode.Once)
        (Timer.from_seconds frequency TimerMode.Repeating)
  | CardEffect.DirectDamage damage => ActiveEffect.DirectDamage damage
  | CardEffect.Stun duration => ActiveEffect.Stun (Timer.from_seconds duration TimerMode.Once)
  | CardEffect.Heal heal => ActiveEffect.Heal heal

/-- The loop body of enemy_auto_attack: tick the card timer and, when it
finishes, push the instantiated effect onto the player effect list. -/
def enemy_attack_step (delta : ℕ) (acc : List Card × List ActiveEffect) (c : Card) :
    List Card × List ActiveEffect :=
  let t := c.timer.tick delta
  if t.finished = true then
    (acc.1 ++ [{ c with timer := t }], acc.2 ++ [instantiate_effect c.effect])
  else (acc.1 ++ [{ c with timer := t }], acc.2)

/-- main.rs enemy_auto_attack: when the enemy is stunned do nothing (the
early return skips the timer ticks too); otherwise run the card loop. -/
def enemy_auto_attack (delta : ℕ) (st : BattleState) : BattleState :=
  if is_stunned st.enemyEffects = true then st
  else
    let r := st.enemyCards.foldl (enemy_attack_step delta) ([], st.playerEffects)
    { st with enemyCards := r.1, playerEffects := r.2 }

/-- The match in player_auto_attack: the pair of lists (player_effects,
enemy_effects) a firing player card pushes.  Heal goes onto the player
itself, the other three kinds onto the enemy. -/
def player_card_targets (e : CardEffect) : List ActiveEffect × List ActiveEffect :=
  match e with
  | CardEffect.DamageOverTime damage duration frequency =>
      ([], [ActiveEffect.DamageOverTime damage (Timer.from_seconds duration TimerMode.Once)
        (Timer.from_seconds frequency TimerMode.Repeating)])
  | CardEffect.DirectDamage damage => ([], [ActiveEffect.DirectDamage damage])
  | CardEffect.Stun duration =>
      ([], [ActiveEffect.Stun (Timer.from_seconds duration TimerMode.Once)])
  | CardEffect.Heal heal => ([ActiveEffect.Heal heal], [])

/-- The loop body of player_auto_attack. -/
def player_attack_step (delta : ℕ) (acc : List Card × List ActiveEffect × List ActiveEffect)
    (c : Card) : List Card × List ActiveEffect × List ActiveEffect :=
  let t := c.timer.tick delta
  if t.finished = true then
    (acc.1 ++ [{ c with timer := t }],
     acc.2.1 ++ (player_card_targets c.effect).1,
     acc.2.2 ++ (player_card_targets c.effect).2)
  else (acc.1 ++ [{ c with timer := t }], acc.2.1, acc.2.2)

/-- main.rs player_auto_attack. -/
def player_auto_attack (delta : ℕ) (st : BattleState) : BattleState :=
  if is_stunned st.playerEffects = true then st
  else
    let r := st.playerCards.foldl (player_attack_step delta)
      ([], st.playerEffects, st.enemyEffects)
    { st with playerCards := r.1, playerEffects := r.2.1, enemyEffects := r.2.2 }

/-- The loop body shared verbatim by calculate_player_effects and
calculate_enemy_effects: tick the effect timers, apply damage or heal to
the accumulated health, keep only effects whose duration is unfinished. -/
def effect_step (delta : ℕ) (acc : List ActiveEffect × ℤ) (e : ActiveEffect) :
    List ActiveEffect × ℤ :=
  match e with
  | ActiveEffect.DamageOverTime damage duration frequency =>
      let duration2 := duration.tick delta
      let frequency2 := frequency.tick delta
      let h := if frequency2.finished = true then acc.2 - damage else acc.2
      (if duration2.finished = false then
        acc.1 ++ [ActiveEffect.DamageOverTime damage duration2 frequency2]
       else acc.1, h)
  | ActiveEffect.DirectDamage damage => (acc.1, acc.2 - damage)
  | ActiveEffect.Stun duration =>
      let duration2 := duration.tick delta
      (if duration2.finished = false then acc.1 ++ [ActiveEffect.Stun duration2] else acc.1,
       acc.2)
  | ActiveEffect.Heal heal => (acc.1, acc.2 + heal)

/-- The body shared by calculate_player_effects and
calculate_enemy_effects, acting on one combatant's effect list and
health. -/
def apply_effects (delta : ℕ) (effects : List ActiveEffect) (health : ℤ) :
    List ActiveEffect × ℤ :=
  effects.foldl (effect_step delta) ([], health)

/-- main.rs calculate_player_effects (entity present case). -/
def calculate_player_effects (delta : ℕ) (st : BattleState) : BattleState :=
  let r := apply_effects delta st.playerEffects st.playerHealth
  { st with playerEffects := r.1, playerHealth := r.2 }

/-- main.rs calculate_enemy_effects (entity present case). -/
def calculate_enemy_effects (delta : ℕ) (st : BattleState) : BattleState :=
  let r := apply_effects delta st.enemyEffects st.enemyHealth
  { st with enemyEffects := r.1, enemyHealth := r.2 }

/-- One simulation frame while in Battle: the chained
simulation-relevant systems in their registration order. -/
def battle_step (delta : ℕ) (st : BattleState) : BattleState :=
  calculate_enemy_effects delta (calculate_player_effects delta
    (player_auto_attack delta (enemy_auto_attack delta (update_card_timers delta st))))

/-- main.rs GameState. -/
inductive GameState where
  | Battle
  | LootScreen
  | Menu
  | EndBattle
  | GameOver
deriving DecidableEq

/-- main.rs check_enemy_death: despawn every enemy with health at most
zero; when no enemy is left alive set next_state to LootScreen (returned
as some LootScreen; none means next_state was not touched). -/
def check_enemy_death (enemies : List ℤ) : List ℤ × Option GameState :=
  let survivors := enemies.filter fun h => 0 < h
  (survivors, if survivors.length = 0 then some GameState.LootScreen else none)

/-- main.rs check_player_death: players are never despawned; when no
player has positive health set next_state to GameOver. -/
def check_player_death (players : List ℤ) : Option GameState :=
  if (players.filter fun h => 0 < h).length = 0 then some GameState.GameOver else none

/-- main.rs toggle_ui: on the I key, Battle goes to Menu and every other
state goes to Battle; some s means next_state.set(s) was called. -/
def toggle_ui (pressed_i : Bool) (current : GameState) : Option GameState :=
  if pressed_i = true then
    some (if current = GameState.Battle then GameState.Menu else GameState.Battle)
  else none

/-- main.rs handle_loot_all observer: push every loot item into the
inventory and set next_state to Battle, with no phase precondition (the
current phase argument is ignored, as in the source). -/
def handle_loot_all (loot : List ℕ) (inv : List ℕ) (current : GameState) :
    List ℕ × GameState :=
  (inv ++ loot, GameState.Battle)

/-- spawn_player gives the player PlayerHealth(100). -/
def spawn_player_health : ℤ := 100

/-- spawn_player gives the player these Stats. -/
def player_spawn_stats : Stats := ⟨20, 10, 10, 10, 10⟩

/-- spawn_new_enemy gives the enemy these Stats (and EnemyHealth(100)). -/
def enemy_spawn_stats : Stats := ⟨10, 10, 10, 10, 10⟩

/-- main.rs respawn_on observer for the new-run click: it tries
player_health.get_mut(ev.entity()) where ev.entity() is the clicked
button, resets health to 100 only if that very entity has PlayerHealth,
then sets next_state to Battle and despawns the MenuItem screen.
Returns (player health, next state, menu still present). -/
def respawn_on (player_id : ℕ) (player_health : ℤ) (menu_present : Bool)
    (trigger_id : ℕ) : ℤ × GameState × Bool :=
  (if trigger_id = player_id then 100 else player_health, GameState.Battle, false)

/-- ECS world where a combatant lookup can fail, for the missing-entity
behaviour: each combatant is an optional (effects, health) pair. -/
structure EcsWorld where
  player : Option (List ActiveEffect × ℤ)
  enemy : Option (List ActiveEffect × ℤ)
deriving DecidableEq

/-- calculate_player_effects with its get_single_mut early return: when
no player entity is found the system logs and returns, changing
nothing. -/
def calculate_player_effects_w (delta : ℕ) (w : EcsWorld) : EcsWorld :=
  match w.player with
  | none => w
  | some (es, h) => { w with player := some (apply_effects delta es h) }

/-- calculate_enemy_effects with its get_single_mut early return. -/
def calculate_enemy_effects_w (delta : ℕ) (w : EcsWorld) : EcsWorld :=
  match w.enemy with
  | none => w
  | some (es, h) => { w with enemy := some (apply_effects delta es h) }

/-- Modelled from the spec: the effective-damage formula of section 4.1,
which appears nowhere in src (no call site computes a dodge roll or
reads Stats when applying damage); it is stated here only to compare the
claim with the code. -/
def spec_effective_damage (base : ℤ) (attacker : Stats) (defender : Stats)
    (dodged : Bool) : ℤ :=
  if dodged = true then 0 else base * (attacker.strength : ℤ) / (defender.agility : ℤ)

/-- A one-shot duration timer that has not fired: elapsed t, period d. -/
def oalive (d t : ℕ) : Timer := ⟨t, d, TimerMode.Once, false⟩

/-- A repeating timer in canonical form after total ticked time t:
elapsed is t modulo the period f; b records whether the last tick
completed a cycle. -/
def rwrap (f t : ℕ) (b : Bool) : Timer := ⟨t % f, f, TimerMode.Repeating, b⟩

/-- How many times a DamageOverTime effect with the given duration and
frequency timers applies its damage over a run of per-step deltas,
counting one application per step in which the frequency timer completes
a cycle, and stopping once the duration timer finishes. -/
def dot_applications (durT freqT : Timer) : List ℕ → ℕ
  | [] => 0
  | d :: rest =>
    let dur := durT.tick d
    let freq := freqT.tick d
    (if freq.finished = true then 1 else 0) +
      (if dur.finished = true then 0 else dot_applications dur freq rest)

/-- Iterated effect resolution: fold apply_effects over a list of
per-step deltas. -/
def run_effects (deltas : List ℕ) (p : List ActiveEffect × ℤ) : List ActiveEffect × ℤ :=
  deltas.foldl (fun acc d => apply_effects d acc.1 acc.2) p

/-- N consecutive Battle frames: fold battle_step over the per-frame
elapsed times. -/
def battle_run (deltas : List ℕ) (st : BattleState) : BattleState :=
  deltas.foldl (fun s δ => battle_step δ s) st

/-- The property every effect surviving a resolution pass must have: it
is a duration-carrying kind whose duration timer is unfinished. -/
def kept_unexpired (e : ActiveEffect) : Prop :=
  match e with
  | ActiveEffect.DamageOverTime _ dur _ => dur.finished = false
  | ActiveEffect.Stun dur => dur.finished = false
  | ActiveEffect.DirectDamage _ => False
  | ActiveEffect.Heal _ => False

/-- Replace both stats fields, leaving all combat state alone. -/
def swap_stats (st : BattleState) (a b : Stats) : BattleState :=
  { st with playerStats := a, enemyStats := b }

/-- Concrete state for the stored-amount damage check: a DirectDamage 10
effect pending on the enemy, both combatants at their spawn values. -/
def c1_state : BattleState :=
  ⟨[], [], [], [ActiveEffect.DirectDamage 10], 100, 100, player_spawn_stats, enemy_spawn_stats⟩

/-- Concrete state for the timer-advance check: one enemy card with a
fresh period-10 attack timer, nobody stunned. -/
def c2_state : BattleState :=
  ⟨[], [⟨⟨0, 10, TimerMode.Repeating, false⟩, CardEffect.DirectDamage 5⟩],
    [], [], 100, 100, player_spawn_stats, enemy_spawn_stats⟩

/-- Concrete state for the heal-target check: one player Heal card whose
attack timer completes after one unit of time. -/
def c3_state : BattleState :=
  ⟨[⟨⟨0, 1, TimerMode.Repeating, false⟩, CardEffect.Heal 5⟩], [],
    [], [], 100, 100, player_spawn_stats, enemy_spawn_stats⟩

/-- Concrete state for the enemy-heal check: one enemy Heal card whose
attack timer completes after one unit of time. -/
def c10_state : BattleState :=
  ⟨[], [⟨⟨0, 1, TimerMode.Repeating, false⟩, CardEffect.Heal 5⟩],
    [], [], 100, 100, player_spawn_stats, enemy_spawn_stats⟩

/-- Concrete state for the single-enemy-attack check: one enemy
DirectDamage card whose attack timer completes after one unit of time. -/
def c3b_state : BattleState :=
  ⟨[], [⟨⟨0, 1, TimerMode.Repeating, false⟩, CardEffect.DirectDamage 7⟩],
    [], [], 100, 100, player_spawn_stats, enemy_spawn_stats⟩

/-- Concrete effect list for the survivor check: a one-shot damage entry
and a five-unit stun. -/
def c5_effects : List ActiveEffect :=
  [ActiveEffect.DirectDamage 3, ActiveEffect.Stun ⟨0, 5, TimerMode.Once, false⟩]

/-- A world with no player entity, for the missing-entity check. -/
def c9_world : EcsWorld := ⟨none, some ([], 5)⟩

/-- Concrete state for the stun check: the player holds one attack card
mid-countdown, a ten-unit stun and a pending DamageOverTime 2 with
period-1 frequency; the enemy has no cards and no effects. -/
def c4_state : BattleState :=
  ⟨[⟨⟨3, 5, TimerMode.Repeating, false⟩, CardEffect.DirectDamage 1⟩], [],
    [ActiveEffect.Stun (oalive 10 0),
     ActiveEffect.DamageOverTime 2 (oalive 10 0) (rwrap 1 0 false)], [],
    100, 50, player_spawn_stats, enemy_spawn_stats⟩

end SoloSpire

namespace SoloSpire

theorem tick_once_alive (d t δ : ℕ) (h : t + δ < d) :
    (oalive d t).tick δ = oalive d (t + δ) := by
  simp [oalive, Timer.tick, Nat.not_le.mpr h]

theorem tick_once_dead (d t δ : ℕ) (h : d ≤ t + δ) :
    (oalive d t).tick δ = ⟨d, d, TimerMode.Once, true⟩ := by
  simp [oalive, Timer.tick, h]

theorem time_split (f t δ : ℕ) : t + δ = f * (t / f) + (t % f + δ) := by
  have h1 := Nat.div_add_mod t f
  omega

theorem tick_rep_fire (f t δ : ℕ) (b : Bool) (hf : 0 < f) (h : f ≤ t % f + δ) :
    (rwrap f t b).tick δ = rwrap f (t + δ) true ∧ t / f + 1 ≤ (t + δ) / f := by
  constructor
  · have hmod : (t % f + δ) % f = (t + δ) % f := Nat.mod_add_mod t f δ
    simp [rwrap, Timer.tick, h, hmod]
  · have hdiv : (t + δ) / f = t / f + (t % f + δ) / f := by
      rw [time_split f t δ, Nat.mul_add_div hf]
    have hone : 1 ≤ (t % f + δ) / f := (Nat.one_le_div_iff hf).mpr h
    omega

theorem tick_rep_nofire (f t δ : ℕ) (b : Bool) (hf : 0 < f) (h : t % f + δ < f) :
    (rwrap f t b).tick δ = rwrap f (t + δ) false ∧ (t + δ) / f = t / f := by
  have hmod : (t + δ) % f = t % f + δ := by
    rw [← Nat.mod_add_mod]
    exact Nat.mod_eq_of_lt h
  refine ⟨?_, ?_⟩
  · simp [rwrap, Timer.tick, Nat.not_le.mpr h, hmod]
  · rw [time_split f t δ, Nat.mul_add_div hf, Nat.div_eq_of_lt h]
    omega

theorem enemy_fold_cards (δ : ℕ) (cards : List Card) :
    ∀ acc : List Card × List ActiveEffect,
      (cards.foldl (enemy_attack_step δ) acc).1
        = acc.1 ++ cards.map fun c => { c with timer := c.timer.tick δ } := by
  induction cards with
  | nil => intro acc; simp
  | cons c rest ih =>
    intro acc
    rw [List.foldl_cons, ih]
    by_cases h : ((c.timer.tick δ).finished = true) <;>
      simp [enemy_attack_step, h]

theorem player_fold_cards (δ : ℕ) (cards : List Card) :
    ∀ acc : List Card × List ActiveEffect × List ActiveEffect,
      (cards.foldl (player_attack_step δ) acc).1
        = acc.1 ++ cards.map fun c => { c with timer := c.timer.tick δ } := by
  induction cards with
  | nil => intro acc; simp
  | cons c rest ih =>
    intro acc
    rw [List.foldl_cons, ih]
    by_cases h : ((c.timer.tick δ).finished = true) <;>
      simp [player_attack_step, h]

theorem eaa_playerCards (δ : ℕ) (st : BattleState) :
    (enemy_auto_attack δ st).playerCards = st.playerCards := by
  unfold enemy_auto_attack; split <;> rfl

theorem eaa_enemyEffects (δ : ℕ) (st : BattleState) :
    (enemy_auto_attack δ st).enemyEffects = st.enemyEffects := by
  unfold enemy_auto_attack; split <;> rfl

theorem paa_enemyCards (δ : ℕ) (st : BattleState) :
    (player_auto_attack δ st).enemyCards = st.enemyCards := by
  unfold player_auto_attack; split <;> rfl

theorem cpe_cards (δ : ℕ) (st : BattleState) :
    (calculate_player_effects δ st).playerCards = st.playerCards ∧
    (calculate_player_effects δ st).enemyCards = st.enemyCards := ⟨rfl, rfl⟩

theorem cee_cards (δ : ℕ) (st : BattleState) :
    (calculate_enemy_effects δ st).playerCards = st.playerCards ∧
    (calculate_enemy_effects δ st).enemyCards = st.enemyCards := ⟨rfl, rfl⟩

theorem uct_effects (δ : ℕ) (st : BattleState) :
    (update_card_timers δ st).playerEffects = st.playerEffects ∧
    (update_card_timers δ st).enemyEffects = st.enemyEffects := ⟨rfl, rfl⟩

theorem uct_enemyCards (δ : ℕ) (st : BattleState)
    (h : is_stunned st.enemyEffects = false) :
    (update_card_timers δ st).enemyCards
      = st.enemyCards.map fun c => { c with timer := c.timer.tick δ } := by
  simp [update_card_timers, h]

theorem uct_playerCards (δ : ℕ) (st : BattleState)
    (h : is_stunned st.playerEffects = false) :
    (update_card_timers δ st).playerCards
      = st.playerCards.map fun c => { c with timer := c.timer.tick δ } := by
  simp [update_card_timers, h]

theorem eaa_enemyCards_map (δ : ℕ) (st : BattleState)
    (h : is_stunned st.enemyEffects = false) :
    (enemy_auto_attack δ st).enemyCards
      = st.enemyCards.map fun c => { c with timer := c.timer.tick δ } := by
  unfold enemy_auto_attack
  rw [if_neg (by simp [h])]
  simpa using enemy_fold_cards δ st.enemyCards ([], st.playerEffects)

theorem paa_playerCards_map (δ : ℕ) (st : BattleState)
    (h : is_stunned st.playerEffects = false) :
    (player_auto_attack δ st).playerCards
      = st.playerCards.map fun c => { c with timer := c.timer.tick δ } := by
  unfold player_auto_attack
  rw [if_neg (by simp [h])]
  simpa using player_fold_cards δ st.playerCards ([], st.playerEffects, st.enemyEffects)

theorem apply_effects_concat (δ : ℕ) (es : List ActiveEffect) (e : ActiveEffect) (h : ℤ) :
    apply_effects δ (es ++ [e]) h = effect_step δ (apply_effects δ es h) e := by
  unfold apply_effects
  rw [List.foldl_append]
  rfl

theorem uct_swap (δ : ℕ) (st : BattleState) (a b : Stats) :
    update_card_timers δ (swap_stats st a b) = swap_stats (update_card_timers δ st) a b := by
  cases st; rfl

theorem eaa_swap (δ : ℕ) (st : BattleState) (a b : Stats) :
    enemy_auto_attack δ (swap_stats st a b) = swap_stats (enemy_auto_attack δ st) a b := by
  cases st with
  | mk pc ec pe ee ph eh ps es =>
    by_cases hc : is_stunned ee = true <;> simp [enemy_auto_attack, swap_stats, hc]

theorem paa_swap (δ : ℕ) (st : BattleState) (a b : Stats) :
    player_auto_attack δ (swap_stats st a b) = swap_stats (player_auto_attack δ st) a b := by
  cases st with
  | mk pc ec pe ee ph eh ps es =>
    by_cases hc : is_stunned pe = true <;> simp [player_auto_attack, swap_stats, hc]

theorem cpe_swap (δ : ℕ) (st : BattleState) (a b : Stats) :
    calculate_player_effects δ (swap_stats st a b)
      = swap_stats (calculate_player_effects δ st) a b := by
  cases st; rfl

theorem cee_swap (δ : ℕ) (st : BattleState) (a b : Stats) :
    calculate_enemy_effects δ (swap_stats st a b)
      = swap_stats (calculate_enemy_effects δ st) a b := by
  cases st; rfl

/-- C1 counterexample: with the spawn stats (player strength 20, enemy
agility 10) a pending DirectDamage(10) subtracts exactly 10, leaving the
enemy at 90; the spec formula would give either 0 (dodge) or
floor(10 * 20 / 10) = 20 damage, neither of which matches, and changing
both combatants' stats wildly leaves the result at 90. -/
theorem c1_damage_ignores_stats :
    (calculate_enemy_effects 1 c1_state).enemyHealth = 90 ∧
    spec_effective_damage 10 player_spawn_stats enemy_spawn_stats false = 20 ∧
    spec_effective_damage 10 player_spawn_stats enemy_spawn_stats true = 0 ∧
    (90 : ℤ) ≠ 100 - 20 ∧
    (90 : ℤ) ≠ 100 - 0 ∧
    (calculate_enemy_effects 1
      (swap_stats c1_state ⟨99, 1, 1, 1, 1⟩ ⟨1, 99, 1, 1, 1⟩)).enemyHealth = 90 := by
  decide

/-- C1 amended: the damage a resolved attack applies is exactly the
amount stored in the effect, with no dodge roll and no stat scaling: a
DirectDamage(d) entry subtracts precisely d from the target health, and
the whole battle step commutes with replacing both combatants' Stats,
so no health change depends on strength or agility. -/
theorem c1_damage_equals_stored_amount :
    (∀ (δ : ℕ) (es : List ActiveEffect) (h d : ℤ),
      (apply_effects δ (es ++ [ActiveEffect.DirectDamage d]) h).2
        = (apply_effects δ es h).2 - d) ∧
    (∀ (δ : ℕ) (st : BattleState) (a b : Stats),
      battle_step δ (swap_stats st a b) = swap_stats (battle_step δ st) a b) := by
  constructor
  · intro δ es h d
    rw [apply_effects_concat]
    rfl
  · intro δ st a b
    simp [battle_step, uct_swap, eaa_swap, paa_swap, cpe_swap, cee_swap]

/-- C2 counterexample: one battle step with elapsed time 1 advances a
fresh enemy attack timer to elapsed 2, not 1, because update_card_timers
and enemy_auto_attack both tick it. -/
theorem c2_timer_ticked_twice :
    (battle_step 1 c2_state).enemyCards.map (fun c => c.timer.elapsed) = [2] ∧
    (battle_step 1 c2_state).enemyCards.map (fun c => c.timer.elapsed) ≠ [1] := by
  decide

/-- C2 amended: each attack timer of a combatant that is unstunned at
both ticking points of the step is ticked exactly twice with the step's
elapsed time (once by update_card_timers and once by the owner's
auto-attack system), so a timer that does not complete accumulates
2 times the elapsed time per step, not once. -/
theorem c2_step_ticks_timers_twice (st : BattleState) (δ : ℕ)
    (he : is_stunned st.enemyEffects = false)
    (hp : is_stunned st.playerEffects = false)
    (hp2 : is_stunned
      ((enemy_auto_attack δ (update_card_timers δ st)).playerEffects) = false) :
    (battle_step δ st).enemyCards
        = st.enemyCards.map (fun c => { c with timer := (c.timer.tick δ).tick δ }) ∧
    (battle_step δ st).playerCards
        = st.playerCards.map (fun c => { c with timer := (c.timer.tick δ).tick δ }) ∧
    ∀ t : Timer, t.finished = false → t.elapsed + 2 * δ < t.duration →
      ((t.tick δ).tick δ).elapsed = t.elapsed + 2 * δ := by
  have he2 : is_stunned ((update_card_timers δ st).enemyEffects) = false := by
    rw [(uct_effects δ st).2]; exact he
  refine ⟨?_, ?_, ?_⟩
  · show (calculate_enemy_effects δ (calculate_player_effects δ (player_auto_attack δ
      (enemy_auto_attack δ (update_card_timers δ st))))).enemyCards = _
    rw [(cee_cards δ _).2, (cpe_cards δ _).2, paa_enemyCards,
      eaa_enemyCards_map δ _ he2, uct_enemyCards δ st he, List.map_map]
    rfl
  · show (calculate_enemy_effects δ (calculate_player_effects δ (player_auto_attack δ
      (enemy_auto_attack δ (update_card_timers δ st))))).playerCards = _
    rw [(cee_cards δ _).1, (cpe_cards δ _).1, paa_playerCards_map δ _ hp2,
      eaa_playerCards, uct_playerCards δ st hp, List.map_map]
    rfl
  · intro t ht hlt
    have h1 : t.tick δ = ⟨t.elapsed + δ, t.duration, t.mode, false⟩ := by
      simp [Timer.tick, ht, Nat.not_le.mpr (show t.elapsed + δ < t.duration by omega)]
    have h2 : (Timer.mk (t.elapsed + δ) t.duration t.mode false).tick δ
        = ⟨t.elapsed + δ + δ, t.duration, t.mode, false⟩ := by
      simp [Timer.tick, Nat.not_le.mpr (show t.elapsed + δ + δ < t.duration by omega)]
    rw [h1, h2]
    show t.elapsed + δ + δ = t.elapsed + 2 * δ
    omega

/-- C2 witness: the amended statement evaluated at the concrete one-card
state with elapsed time 1. -/
theorem c2_step_ticks_timers_twice_witness :
    is_stunned c2_state.enemyEffects = false ∧
    (battle_step 1 c2_state).enemyCards
      = c2_state.enemyCards.map (fun c => { c with timer := (c.timer.tick 1).tick 1 }) := by
  refine ⟨by decide, ?_⟩
  exact (c2_step_ticks_timers_twice c2_state 1 (by decide) (by decide) (by decide)).1

/-- C3 counterexample: a firing player Heal card puts its ActiveEffect
on the player's own effect list and nothing on the enemy's, so not every
player card's effect is appended to the enemy's effect list. -/
theorem c3_player_heal_targets_player :
    (player_auto_attack 1 c3_state).enemyEffects = [] ∧
    (player_auto_attack 1 c3_state).playerEffects = [ActiveEffect.Heal 5] ∧
    ([ActiveEffect.Heal 5] : List ActiveEffect) ≠ [] := by
  decide

/-- C3 amended: when a card's attack timer completes its EffectSpec is
instantiated as an ActiveEffect whose target is the opposing combatant
for every kind except a player Heal card, which is instantiated on the
player itself; an enemy card of any kind (Heal included) is appended to
the player's effect list. -/
theorem c3_card_effect_targets :
    (∀ (st : BattleState) (δ : ℕ) (c : Card),
      is_stunned st.playerEffects = false → st.playerCards = [c] →
      (c.timer.tick δ).finished = true →
      ((player_auto_attack δ st).playerEffects
          = st.playerEffects ++ (player_card_targets c.effect).1 ∧
       (player_auto_attack δ st).enemyEffects
          = st.enemyEffects ++ (player_card_targets c.effect).2 ∧
       ∀ a : ℤ, c.effect = CardEffect.Heal a →
         (player_auto_attack δ st).playerEffects = st.playerEffects ++ [ActiveEffect.Heal a] ∧
         (player_auto_attack δ st).enemyEffects = st.enemyEffects)) ∧
    (∀ (st : BattleState) (δ : ℕ) (c : Card),
      is_stunned st.enemyEffects = false → st.enemyCards = [c] →
      (c.timer.tick δ).finished = true →
      ((enemy_auto_attack δ st).playerEffects
          = st.playerEffects ++ [instantiate_effect c.effect] ∧
       (enemy_auto_attack δ st).enemyEffects = st.enemyEffects)) := by
  constructor
  · intro st δ c hstun hcards hfin
    have hmain :
        (player_auto_attack δ st).playerEffects
          = st.playerEffects ++ (player_card_targets c.effect).1 ∧
        (player_auto_attack δ st).enemyEffects
          = st.enemyEffects ++ (player_card_targets c.effect).2 := by
      unfold player_auto_attack
      rw [if_neg (by simp [hstun]), hcards]
      constructor <;> simp [player_attack_step, hfin]
    refine ⟨hmain.1, hmain.2, ?_⟩
    intro a ha
    rw [hmain.1, hmain.2, ha]
    simp [player_card_targets]
  · intro st δ c hstun hcards hfin
    unfold enemy_auto_attack
    rw [if_neg (by simp [hstun]), hcards]
    constructor <;> simp [enemy_attack_step, hfin]

/-- C3 witness: the amended statement at a concrete enemy DirectDamage
card firing after one unit of time. -/
theorem c3_card_effect_targets_witness :
    is_stunned c3b_state.enemyEffects = false ∧
    ((enemy_auto_attack 1 c3b_state).playerEffects
        = c3b_state.playerEffects
            ++ [instantiate_effect (CardEffect.DirectDamage 7)] ∧
     (enemy_auto_attack 1 c3b_state).enemyEffects = c3b_state.enemyEffects) := by
  refine ⟨by decide, ?_⟩
  exact c3_card_effect_targets.2 c3b_state 1
    ⟨⟨0, 1, TimerMode.Repeating, false⟩, CardEffect.DirectDamage 7⟩
    (by decide) (by decide) (by decide)

theorem apply_effects_kept (δ : ℕ) (es : List ActiveEffect) :
    ∀ acc : List ActiveEffect × ℤ,
      (∀ e ∈ acc.1, kept_unexpired e) →
      ∀ e ∈ (es.foldl (effect_step δ) acc).1, kept_unexpired e := by
  induction es with
  | nil => intro acc hacc; simpa using hacc
  | cons a rest ih =>
    intro acc hacc
    rw [List.foldl_cons]
    apply ih
    cases a with
    | DamageOverTime dmg dur freq =>
      intro e he
      simp only [effect_step] at he
      by_cases hd : ((dur.tick δ).finished = false)
      · rw [if_pos hd] at he
        rcases List.mem_append.mp he with h1 | h1
        · exact hacc e h1
        · rcases List.mem_singleton.mp h1 with rfl
          exact hd
      · rw [if_neg hd] at he
        exact hacc e he
    | DirectDamage dmg =>
      intro e he
      exact hacc e he
    | Stun dur =>
      intro e he
      simp only [effect_step] at he
      by_cases hd : ((dur.tick δ).finished = false)
      · rw [if_pos hd] at he
        rcases List.mem_append.mp he with h1 | h1
        · exact hacc e h1
        · rcases List.mem_singleton.mp h1 with rfl
          exact hd
      · rw [if_neg hd] at he
        exact hacc e he
    | Heal amt =>
      intro e he
      exact hacc e he

/-- C5: after a resolution pass every effect still in the list is a
DamageOverTime or Stun entry whose duration timer is unfinished; in
particular no DirectDamage or Heal entry survives the pass in which it
was applied. -/
theorem c5_only_unexpired_survive (δ : ℕ) (es : List ActiveEffect) (h : ℤ) :
    ∀ e ∈ (apply_effects δ es h).1, kept_unexpired e := by
  unfold apply_effects
  exact apply_effects_kept δ es ([], h) (by simp)

/-- C5 witness: resolving a DirectDamage and a fresh stun leaves exactly
the ticked stun, which satisfies the survivor property. -/
theorem c5_only_unexpired_survive_witness :
    (ActiveEffect.Stun ⟨1, 5, TimerMode.Once, false⟩ ∈ (apply_effects 1 c5_effects 100).1) ∧
    kept_unexpired (ActiveEffect.Stun ⟨1, 5, TimerMode.Once, false⟩) := by
  refine ⟨by decide, ?_⟩
  exact c5_only_unexpired_survive 1 c5_effects 100 _ (by decide)

/-- C7: the new-run click handler evaluated at its failing input: the
clicked entity is the New-run button (entity 2), not the player (entity
1), so the PlayerHealth lookup fails and the dead player's health stays
at -5 instead of being reset to the spawn value 100, even though the
phase does go to Battle and the game-over screen is despawned. -/
theorem c7_new_run_skips_health_reset :
    respawn_on 1 (-5) true 2 = (-5, GameState.Battle, false) ∧
    (-5 : ℤ) ≠ spawn_player_health := by
  decide

/-- C8 counterexample: pressing the inventory key while the phase is
GameOver sets the phase to Battle, so the handler acts outside its
Battle/Menu precondition instead of ignoring the trigger. -/
theorem c8_toggle_acts_in_gameover :
    toggle_ui true GameState.GameOver = some GameState.Battle ∧
    GameState.Battle ≠ GameState.GameOver := by
  decide

/-- C8 amended: the handlers check no precondition phase: the inventory
key maps Battle to Menu and every other phase (Menu, LootScreen,
EndBattle, GameOver) to Battle, nothing happens without the key press,
and loot-all sets Battle whatever the current phase is. -/
theorem c8_handlers_have_no_phase_guard :
    toggle_ui true GameState.Battle = some GameState.Menu ∧
    toggle_ui true GameState.Menu = some GameState.Battle ∧
    toggle_ui true GameState.LootScreen = some GameState.Battle ∧
    toggle_ui true GameState.EndBattle = some GameState.Battle ∧
    toggle_ui true GameState.GameOver = some GameState.Battle ∧
    (∀ s, toggle_ui false s = none) ∧
    (∀ (loot inv : List ℕ) (s : GameState),
      (handle_loot_all loot inv s).2 = GameState.Battle) := by
  exact ⟨rfl, rfl, rfl, rfl, rfl, fun s => rfl, fun loot inv s => rfl⟩

/-- C9 counterexample: check_enemy_death run in a step with no enemy
entity does not skip the step: it counts zero living enemies and sets
the next phase to LootScreen. -/
theorem c9_death_check_acts_on_missing_entity :
    check_enemy_death [] = ([], some GameState.LootScreen) ∧
    (some GameState.LootScreen : Option GameState) ≠ none := by
  decide

/-- C9 amended: the effect-resolution systems do return early without
touching anything when their combatant lookup fails, but the death
checks instead treat an absent combatant as dead: with no enemy the
phase is set to LootScreen and with no player it is set to GameOver. -/
theorem c9_missing_entity_handling :
    (∀ (δ : ℕ) (w : EcsWorld), w.player = none → calculate_player_effects_w δ w = w) ∧
    (∀ (δ : ℕ) (w : EcsWorld), w.enemy = none → calculate_enemy_effects_w δ w = w) ∧
    check_enemy_death [] = ([], some GameState.LootScreen) ∧
    check_player_death [] = some GameState.GameOver := by
  refine ⟨?_, ?_, by decide, by decide⟩
  · intro δ w h
    unfold calculate_player_effects_w
    rw [h]
  · intro δ w h
    unfold calculate_enemy_effects_w
    rw [h]

/-- C9 witness: the amended statement at a concrete world with no
player. -/
theorem c9_missing_entity_handling_witness :
    c9_world.player = none ∧ calculate_player_effects_w 1 c9_world = c9_world := by
  exact ⟨rfl, c9_missing_entity_handling.1 1 c9_world rfl⟩

/-- C10: a firing enemy Heal(amount) card appends ActiveEffect.Heal
amount to the player's effect list and leaves the enemy's list alone,
and the resolution pass that consumes it adds exactly amount to the
player's health. -/
theorem c10_enemy_heal_heals_player (st : BattleState) (δ : ℕ) (tmr : Timer) (amt : ℤ)
    (hstun : is_stunned st.enemyEffects = false)
    (hcards : st.enemyCards = [⟨tmr, CardEffect.Heal amt⟩])
    (hfin : (tmr.tick δ).finished = true) :
    (enemy_auto_attack δ st).playerEffects = st.playerEffects ++ [ActiveEffect.Heal amt] ∧
    (enemy_auto_attack δ st).enemyEffects = st.enemyEffects ∧
    ∀ (δ2 : ℕ) (es : List ActiveEffect) (h : ℤ),
      apply_effects δ2 (es ++ [ActiveEffect.Heal amt]) h
        = ((apply_effects δ2 es h).1, (apply_effects δ2 es h).2 + amt) := by
  refine ⟨?_, ?_, ?_⟩
  · unfold enemy_auto_attack
    rw [if_neg (by simp [hstun]), hcards]
    simp [enemy_attack_step, hfin, instantiate_effect]
  · exact eaa_enemyEffects δ st
  · intro δ2 es h
    rw [apply_effects_concat]
    rfl

theorem rwrap_finished (f t : ℕ) (b : Bool) : (rwrap f t b).finished = b := rfl

theorem oalive_finished (d t : ℕ) : (oalive d t).finished = false := rfl

theorem run_effects_cons (δ : ℕ) (ds : List ℕ) (p : List ActiveEffect × ℤ) :
    run_effects (δ :: ds) p = run_effects ds (apply_effects δ p.1 p.2) := rfl

theorem run_effects_empty (deltas : List ℕ) (h : ℤ) :
    run_effects deltas ([], h) = ([], h) := by
  induction deltas with
  | nil => rfl
  | cons δ rest ih => exact ih

theorem apply_effects_dot (δ : ℕ) (d : ℤ) (durT freqT : Timer) (h : ℤ) :
    apply_effects δ [ActiveEffect.DamageOverTime d durT freqT] h
      = (if (durT.tick δ).finished = false
          then [ActiveEffect.DamageOverTime d (durT.tick δ) (freqT.tick δ)] else [],
         if (freqT.tick δ).finished = true then h - d else h) := by
  simp [apply_effects, effect_step]

theorem run_dot (D F : ℕ) (d : ℤ) (hF : 0 < F) :
    ∀ (deltas : List ℕ) (t : ℕ) (b : Bool) (h : ℤ), t < D →
      ((run_effects deltas
          ([ActiveEffect.DamageOverTime d (oalive D t) (rwrap F t b)], h)).2
        = h - d * dot_applications (oalive D t) (rwrap F t b) deltas) ∧
      (D ≤ t + deltas.sum →
        (run_effects deltas
          ([ActiveEffect.DamageOverTime d (oalive D t) (rwrap F t b)], h)).1 = []) := by
  intro deltas
  induction deltas with
  | nil =>
    intro t b h htD
    refine ⟨by simp [run_effects, dot_applications], ?_⟩
    intro habs
    exfalso
    simp only [List.sum_nil] at habs
    omega
  | cons δ rest ih =>
    intro t b h htD
    by_cases hdead : D ≤ t + δ
    · have hdur := tick_once_dead D t δ hdead
      have hstep : apply_effects δ
          [ActiveEffect.DamageOverTime d (oalive D t) (rwrap F t b)] h
          = ([], if ((rwrap F t b).tick δ).finished = true then h - d else h) := by
        rw [apply_effects_dot, hdur]
        simp
      rw [run_effects_cons]
      simp only [hstep, run_effects_empty]
      have happs : dot_applications (oalive D t) (rwrap F t b) (δ :: rest)
          = if ((rwrap F t b).tick δ).finished = true then 1 else 0 := by
        simp [dot_applications, hdur]
      refine ⟨?_, fun _ => by simp⟩
      rw [happs]
      by_cases hf : (((rwrap F t b).tick δ).finished = true) <;> simp [hf]
    · have hal : t + δ < D := by omega
      have hdur := tick_once_alive D t δ hal
      have hdal : (oalive D (t + δ)).finished = false := rfl
      by_cases hfire : F ≤ t % F + δ
      · have hfr := (tick_rep_fire F t δ b hF hfire).1
        have hstep : apply_effects δ
            [ActiveEffect.DamageOverTime d (oalive D t) (rwrap F t b)] h
            = ([ActiveEffect.DamageOverTime d (oalive D (t + δ))
                (rwrap F (t + δ) true)], h - d) := by
          rw [apply_effects_dot, hdur, hfr]
          simp [hdal, rwrap]
        have happs : dot_applications (oalive D t) (rwrap F t b) (δ :: rest)
            = 1 + dot_applications (oalive D (t + δ)) (rwrap F (t + δ) true) rest := by
          simp only [dot_applications]
          rw [hdur, hfr]
          simp [rwrap_finished, oalive_finished]
        obtain ⟨ih1, ih2⟩ := ih (t + δ) true (h - d) hal
        rw [run_effects_cons]
        simp only [hstep]
        refine ⟨?_, ?_⟩
        · rw [ih1, happs]
          push_cast
          ring
        · intro hle
          apply ih2
          simp only [List.sum_cons] at hle
          omega
      · have hfr := (tick_rep_nofire F t δ b hF (by omega)).1
        have hstep : apply_effects δ
            [ActiveEffect.DamageOverTime d (oalive D t) (rwrap F t b)] h
            = ([ActiveEffect.DamageOverTime d (oalive D (t + δ))
                (rwrap F (t + δ) false)], h) := by
          rw [apply_effects_dot, hdur, hfr]
          simp [hdal, rwrap]
        have happs : dot_applications (oalive D t) (rwrap F t b) (δ :: rest)
            = dot_applications (oalive D (t + δ)) (rwrap F (t + δ) false) rest := by
          simp only [dot_applications]
          rw [hdur, hfr]
          simp [rwrap_finished, oalive_finished]
        obtain ⟨ih1, ih2⟩ := ih (t + δ) false h hal
        rw [run_effects_cons]
        simp only [hstep]
        refine ⟨?_, ?_⟩
        · rw [ih1, happs]
        · intro hle
          apply ih2
          simp only [List.sum_cons] at hle
          omega

theorem dot_applications_le (D F : ℕ) (hF : 0 < F) :
    ∀ (deltas : List ℕ) (t : ℕ) (b : Bool), t < D →
      dot_applications (oalive D t) (rwrap F t b) deltas + t / F ≤ D / F + 1 := by
  intro deltas
  induction deltas with
  | nil =>
    intro t b htD
    have hdd : t / F ≤ D / F := Nat.div_le_div_right (le_of_lt htD)
    simp only [dot_applications]
    omega
  | cons δ rest ih =>
    intro t b htD
    have hdd : t / F ≤ D / F := Nat.div_le_div_right (le_of_lt htD)
    by_cases hdead : D ≤ t + δ
    · have hdur := tick_once_dead D t δ hdead
      by_cases hfire : F ≤ t % F + δ
      · have hfr := (tick_rep_fire F t δ b hF hfire).1
        simp only [dot_applications]
        rw [hdur, hfr]
        simp [rwrap_finished]
        omega
      · have hfr := (tick_rep_nofire F t δ b hF (by omega)).1
        simp only [dot_applications]
        rw [hdur, hfr]
        simp [rwrap_finished]
        omega
    · have hal : t + δ < D := by omega
      have hdur := tick_once_alive D t δ hal
      by_cases hfire : F ≤ t % F + δ
      · obtain ⟨hfr, hdiv⟩ := tick_rep_fire F t δ b hF hfire
        have ihr := ih (t + δ) true hal
        simp only [dot_applications]
        rw [hdur, hfr]
        simp [rwrap_finished, oalive_finished]
        omega
      · obtain ⟨hfr, hdiv⟩ := tick_rep_nofire F t δ b hF (by omega)
        have ihr := ih (t + δ) false hal
        simp only [dot_applications]
        rw [hdur, hfr]
        simp [rwrap_finished, oalive_finished]
        omega

theorem rwrap_zero (F : ℕ) (b : Bool) :
    rwrap F 0 b = ⟨0, F, TimerMode.Repeating, b⟩ := by
  simp [rwrap]

/-- C6: a DamageOverTime effect instantiated with duration D and
frequency F is removed from the effect list by the pass in which its
one-shot duration countdown elapses (here: any run whose elapsed times
sum to at least D), the health lost is exactly the damage amount times
the number of frequency completions, and that number of applications is
bounded by D / F + 1 (stated both with natural floor division and over
the rationals). -/
theorem c6_dot_terminates (D F : ℕ) (d : ℤ) (h : ℤ) (deltas : List ℕ)
    (hF : 0 < F) (hFD : F ≤ D) (hsum : D ≤ deltas.sum) :
    (run_effects deltas
        ([ActiveEffect.DamageOverTime d (Timer.from_seconds D TimerMode.Once)
            (Timer.from_seconds F TimerMode.Repeating)], h)).1 = [] ∧
    (run_effects deltas
        ([ActiveEffect.DamageOverTime d (Timer.from_seconds D TimerMode.Once)
            (Timer.from_seconds F TimerMode.Repeating)], h)).2
        = h - d * dot_applications (Timer.from_seconds D TimerMode.Once)
            (Timer.from_seconds F TimerMode.Repeating) deltas ∧
    dot_applications (Timer.from_seconds D TimerMode.Once)
        (Timer.from_seconds F TimerMode.Repeating) deltas ≤ D / F + 1 ∧
    (dot_applications (Timer.from_seconds D TimerMode.Once)
        (Timer.from_seconds F TimerMode.Repeating) deltas : ℚ)
      ≤ (D : ℚ) / (F : ℚ) + 1 := by
  have hD : 0 < D := lt_of_lt_of_le hF hFD
  have ho : Timer.from_seconds D TimerMode.Once = oalive D 0 := rfl
  have hr : Timer.from_seconds F TimerMode.Repeating = rwrap F 0 false :=
    (rwrap_zero F false).symm
  rw [ho, hr]
  obtain ⟨h1, h2⟩ := run_dot D F d hF deltas 0 false h hD
  have h3 := dot_applications_le D F hF deltas 0 false hD
  simp only [Nat.zero_div, Nat.add_zero] at h3
  refine ⟨h2 (by omega), h1, h3, ?_⟩
  calc (dot_applications (oalive D 0) (rwrap F 0 false) deltas : ℚ)
      ≤ ((D / F + 1 : ℕ) : ℚ) := by exact_mod_cast h3
    _ ≤ (D : ℚ) / (F : ℚ) + 1 := by
        push_cast
        have := Nat.cast_div_le (α := ℚ) (m := D) (n := F)
        linarith

/-- C6 witness: the statement at duration 2, frequency 1, damage 3 over
three steps of elapsed time 1. -/
theorem c6_dot_terminates_witness :
    (0 < 1 ∧ 1 ≤ 2 ∧ 2 ≤ [1, 1, 1].sum) ∧
    ((run_effects [1, 1, 1]
        ([ActiveEffect.DamageOverTime 3 (Timer.from_seconds 2 TimerMode.Once)
            (Timer.from_seconds 1 TimerMode.Repeating)], (100 : ℤ))).1 = [] ∧
     (run_effects [1, 1, 1]
        ([ActiveEffect.DamageOverTime 3 (Timer.from_seconds 2 TimerMode.Once)
            (Timer.from_seconds 1 TimerMode.Repeating)], (100 : ℤ))).2
        = 100 - 3 * dot_applications (Timer.from_seconds 2 TimerMode.Once)
            (Timer.from_seconds 1 TimerMode.Repeating) [1, 1, 1] ∧
     dot_applications (Timer.from_seconds 2 TimerMode.Once)
        (Timer.from_seconds 1 TimerMode.Repeating) [1, 1, 1] ≤ 2 / 1 + 1 ∧
     (dot_applications (Timer.from_seconds 2 TimerMode.Once)
        (Timer.from_seconds 1 TimerMode.Repeating) [1, 1, 1] : ℚ)
       ≤ (2 : ℚ) / (1 : ℚ) + 1) := by
  refine ⟨⟨by decide, by decide, by decide⟩, ?_⟩
  exact c6_dot_terminates 2 1 3 100 [1, 1, 1] (by decide) (by decide) (by decide)

theorem battle_step_stunned (δ : ℕ) (pc : List Card) (pst est : Stats) (ph eh : ℤ)
    (d : ℤ) (s durT freqT : Timer)
    (hsfin : s.finished = false)
    (hs2 : (s.tick δ).finished = false)
    (hd2 : (durT.tick δ).finished = false) :
    battle_step δ
      ⟨pc, [], [ActiveEffect.Stun s, ActiveEffect.DamageOverTime d durT freqT],
        [], ph, eh, pst, est⟩
      = ⟨pc, [],
          [ActiveEffect.Stun (s.tick δ),
           ActiveEffect.DamageOverTime d (durT.tick δ) (freqT.tick δ)], [],
          if (freqT.tick δ).finished = true then ph - d else ph, eh, pst, est⟩ := by
  have hstun : is_stunned
      [ActiveEffect.Stun s, ActiveEffect.DamageOverTime d durT freqT] = true := by
    simp [is_stunned, hsfin]
  simp [battle_step, update_card_timers, enemy_auto_attack, player_auto_attack,
    calculate_player_effects, calculate_enemy_effects, apply_effects, effect_step,
    is_stunned, hstun, hsfin, hs2, hd2]

theorem battle_run_stunned (S D F : ℕ) (d : ℤ) (pc : List Card) (pst est : Stats)
    (hF : 0 < F) :
    ∀ (deltas : List ℕ) (ts td : ℕ) (b : Bool) (ph eh : ℤ),
      ts + deltas.sum < S → td + deltas.sum < D →
      ∃ b2 : Bool,
        battle_run deltas
            ⟨pc, [], [ActiveEffect.Stun (oalive S ts),
              ActiveEffect.DamageOverTime d (oalive D td) (rwrap F td b)], [],
              ph, eh, pst, est⟩
          = ⟨pc, [], [ActiveEffect.Stun (oalive S (ts + deltas.sum)),
              ActiveEffect.DamageOverTime d (oalive D (td + deltas.sum))
                (rwrap F (td + deltas.sum) b2)], [],
              ph - d * dot_applications (oalive D td) (rwrap F td b) deltas,
              eh, pst, est⟩ := by
  intro deltas
  induction deltas with
  | nil =>
    intro ts td b ph eh hS hD
    refine ⟨b, ?_⟩
    simp [battle_run, dot_applications]
  | cons δ rest ih =>
    intro ts td b ph eh hS hD
    simp only [List.sum_cons] at hS hD
    have hsal : (oalive S ts).tick δ = oalive S (ts + δ) :=
      tick_once_alive S ts δ (by omega)
    have hdal : (oalive D td).tick δ = oalive D (td + δ) :=
      tick_once_alive D td δ (by omega)
    have hstep := battle_step_stunned δ pc pst est ph eh d
      (oalive S ts) (oalive D td) (rwrap F td b)
      (by rfl) (by rw [hsal]; rfl) (by rw [hdal]; rfl)
    by_cases hfire : F ≤ td % F + δ
    · have hfr := (tick_rep_fire F td δ b hF hfire).1
      obtain ⟨b2, hrec⟩ := ih (ts + δ) (td + δ) true (ph - d) eh (by omega) (by omega)
      refine ⟨b2, ?_⟩
      show battle_run rest (battle_step δ
        ⟨pc, [], [ActiveEffect.Stun (oalive S ts),
          ActiveEffect.DamageOverTime d (oalive D td) (rwrap F td b)], [],
          ph, eh, pst, est⟩) = _
      rw [hstep, hsal, hdal, hfr]
      have hfin : (rwrap F (td + δ) true).finished = true := rfl
      rw [if_pos hfin, hrec]
      have happs : dot_applications (oalive D td) (rwrap F td b) (δ :: rest)
          = 1 + dot_applications (oalive D (td + δ)) (rwrap F (td + δ) true) rest := by
        simp only [dot_applications]
        rw [hdal, hfr]
        simp [rwrap_finished, oalive_finished]
      rw [happs]
      have h1 : ts + δ + rest.sum = ts + (δ + rest.sum) := by omega
      have h2 : td + δ + rest.sum = td + (δ + rest.sum) := by omega
      have h3 : ph - d - d * (dot_applications (oalive D (td + δ))
            (rwrap F (td + δ) true) rest : ℤ)
          = ph - d * ((1 + dot_applications (oalive D (td + δ))
            (rwrap F (td + δ) true) rest : ℕ) : ℤ) := by
        push_cast
        ring
      rw [h1, h2, h3]
      simp only [List.sum_cons]
    · have hfr := (tick_rep_nofire F td δ b hF (by omega)).1
      obtain ⟨b2, hrec⟩ := ih (ts + δ) (td + δ) false ph eh (by omega) (by omega)
      refine ⟨b2, ?_⟩
      show battle_run rest (battle_step δ
        ⟨pc, [], [ActiveEffect.Stun (oalive S ts),
          ActiveEffect.DamageOverTime d (oalive D td) (rwrap F td b)], [],
          ph, eh, pst, est⟩) = _
      rw [hstep, hsal, hdal, hfr]
      have hfin : (rwrap F (td + δ) false).finished = false := rfl
      rw [if_neg (by rw [hfin]; exact Bool.false_ne_true), hrec]
      have happs : dot_applications (oalive D td) (rwrap F td b) (δ :: rest)
          = dot_applications (oalive D (td + δ)) (rwrap F (td + δ) false) rest := by
        simp only [dot_applications]
        rw [hdal, hfr]
        simp [rwrap_finished, oalive_finished]
      rw [happs]
      have h1 : ts + δ + rest.sum = ts + (δ + rest.sum) := by omega
      have h2 : td + δ + rest.sum = td + (δ + rest.sum) := by omega
      rw [h1, h2]
      simp only [List.sum_cons]

/-- C4: while a combatant (here the player) holds a Stun whose duration
outlasts the whole run, N battle steps leave every attack timer of that
combatant untouched, emit no attack on its behalf (the enemy's effect
list stays empty and the enemy's health is unchanged), while the
attached DamageOverTime keeps ticking: the stunned player's health drops
by the damage amount exactly once per frequency completion. -/
theorem c4_stun_gates_attacks_not_dot
    (st : BattleState) (deltas : List ℕ) (S D F ts td : ℕ) (b : Bool) (d : ℤ)
    (hpe : st.playerEffects = [ActiveEffect.Stun (oalive S ts),
      ActiveEffect.DamageOverTime d (oalive D td) (rwrap F td b)])
    (hec : st.enemyCards = [])
    (hee : st.enemyEffects = [])
    (hF : 0 < F)
    (hS : ts + deltas.sum < S)
    (hD : td + deltas.sum < D) :
    (battle_run deltas st).playerCards = st.playerCards ∧
    (battle_run deltas st).enemyEffects = [] ∧
    (battle_run deltas st).enemyHealth = st.enemyHealth ∧
    (battle_run deltas st).playerHealth = st.playerHealth
        - d * dot_applications (oalive D td) (rwrap F td b) deltas ∧
    ∃ b2 : Bool, (battle_run deltas st).playerEffects
        = [ActiveEffect.Stun (oalive S (ts + deltas.sum)),
           ActiveEffect.DamageOverTime d (oalive D (td + deltas.sum))
             (rwrap F (td + deltas.sum) b2)] := by
  cases st with
  | mk pc ec pe ee ph eh ps es =>
    have hpe2 : pe = [ActiveEffect.Stun (oalive S ts),
        ActiveEffect.DamageOverTime d (oalive D td) (rwrap F td b)] := hpe
    have hec2 : ec = [] := hec
    have hee2 : ee = [] := hee
    subst hpe2 hec2 hee2
    obtain ⟨b2, hrun⟩ := battle_run_stunned S D F d pc ps es hF deltas ts td b ph eh hS hD
    rw [hrun]
    exact ⟨rfl, rfl, rfl, rfl, b2, rfl⟩

/-- C4 witness: two unit steps on the concrete stunned state: the attack
card is frozen at elapsed 3, the enemy receives nothing, and the DOT
with period-1 frequency fires twice, costing 4 health. -/
theorem c4_stun_gates_attacks_not_dot_witness :
    (0 + [1, 1].sum < 10 ∧ 0 < 1) ∧
    ((battle_run [1, 1] c4_state).playerCards = c4_state.playerCards ∧
     (battle_run [1, 1] c4_state).enemyEffects = [] ∧
     (battle_run [1, 1] c4_state).enemyHealth = c4_state.enemyHealth ∧
     (battle_run [1, 1] c4_state).playerHealth = c4_state.playerHealth
        - 2 * dot_applications (oalive 10 0) (rwrap 1 0 false) [1, 1] ∧
     ∃ b2 : Bool, (battle_run [1, 1] c4_state).playerEffects
        = [ActiveEffect.Stun (oalive 10 (0 + [1, 1].sum)),
           ActiveEffect.DamageOverTime 2 (oalive 10 (0 + [1, 1].sum))
             (rwrap 1 (0 + [1, 1].sum) b2)]) := by
  refine ⟨⟨by decide, by decide⟩, ?_⟩
  exact c4_stun_gates_attacks_not_dot c4_state [1, 1] 10 10 1 0 0 false 2
    rfl rfl rfl (by decide) (by decide) (by decide)

/-- C10 witness: the statement at the concrete enemy Heal(5) card firing
after one unit of time, resolved against an empty player effect list. -/
theorem c10_enemy_heal_heals_player_witness :
    is_stunned c10_state.enemyEffects = false ∧
    ((enemy_auto_attack 1 c10_state).playerEffects
        = c10_state.playerEffects ++ [ActiveEffect.Heal 5] ∧
     (enemy_auto_attack 1 c10_state).enemyEffects = c10_state.enemyEffects ∧
     ∀ (δ2 : ℕ) (es : List ActiveEffect) (h : ℤ),
       apply_effects δ2 (es ++ [ActiveEffect.Heal 5]) h
         = ((apply_effects δ2 es h).1, (apply_effects δ2 es h).2 + 5)) := by
  refine ⟨by decide, ?_⟩
  exact c10_enemy_heal_heals_player c10_state 1 ⟨0, 1, TimerMode.Repeating, false⟩ 5
    (by decide) (by decide) (by decide)

end SoloSpire
